import Mathlib

/-!
Shallow embedding of the cover/binning kernel in `src/cover.cpp` (Mapper).

Modelling conventions:
* R `double` values are modelled as `ℚ` (exact arithmetic; the spec states its
  numeric contracts "within floating point tolerance").
* R `NA_integer_` (the sentinel of candidate-neighbor tables) is modelled as
  `none : Option ℤ`.
* An `n × m` matrix is a list of `n` rows, each a list of `m` entries; the
  column count is passed explicitly where the C++ reads `.ncol()`.
* 1-based output indices of the C++/R boundary are kept 1-based here.
-/

/-- `std::numeric_limits<double>::epsilon()`, the machine epsilon used by
`constructLevelSetIndex`. -/
def machineEps : ℚ := 1 / 2 ^ 52

/-- Helper for `which_true`: positions are emitted 1-based, `i` is the number of
entries already consumed. -/
def which_true_aux : List Bool → Nat → List Nat
  | [], _ => []
  | b :: rest, i => if b then (i + 1) :: which_true_aux rest (i + 1) else which_true_aux rest (i + 1)

/-- `which_true` from `cover.cpp`: 1-based positions of the `true` entries of a
logical vector. -/
def which_true (x : List Bool) : List Nat := which_true_aux x 0

/-- The per-point containment test of `constructLevelSetIndex` (line 55 of
`cover.cpp`): for every dimension `d_i < d`,
`x[d_i] >= bnds[d_i] - eps  &&  x[d_i] <= bnds[d + d_i] + eps`.
`bndsRow` is one flat row of the `n × 2d` bounds matrix. -/
def inLevelSetEps (d : Nat) (bndsRow p : List ℚ) : Bool :=
  (List.range d).all fun k =>
    decide (p.getD k 0 ≥ bndsRow.getD k 0 - machineEps) &&
      decide (p.getD k 0 ≤ bndsRow.getD (d + k) 0 + machineEps)

/-- The per-point containment test of `constructIsoAlignedLevelSets` (line 74
of `cover.cpp`): inclusive bounds, no epsilon. -/
def inLevelSetIso (d : Nat) (bndsRow p : List ℚ) : Bool :=
  (List.range d).all fun k =>
    decide (p.getD k 0 ≥ bndsRow.getD k 0) && decide (p.getD k 0 ≤ bndsRow.getD (d + k) 0)

/-- The per-point containment test of `constructFixedLevelSets` /
`constructRestrainedLevelSets`, whose bounds are kept as a `2 × d` matrix:
row 0 (`lo`) holds the minima, row 1 (`hi`) the maxima. Inclusive, no epsilon. -/
def inBoxMinMax (d : Nat) (lo hi p : List ℚ) : Bool :=
  (List.range d).all fun k =>
    decide (p.getD k 0 ≥ lo.getD k 0) && decide (p.getD k 0 ≤ hi.getD k 0)

/-- `res[level_set_test] = v`: overwrite the entries of `res` whose test bit is
set. -/
def updateRes (v : ℤ) : List ℤ → List Bool → List ℤ
  | [], _ => []
  | r :: rs, [] => r :: rs
  | r :: rs, t :: ts => (if t then v else r) :: updateRes v rs ts

/-- The loop of `constructLevelSetIndex`: process the remaining bounds rows,
`i` bins already processed, `res` the current assignment vector. -/
def clsiAux (d : Nat) (x : List (List ℚ)) : List (List ℚ) → Nat → List ℤ → List ℤ
  | [], _, res => res
  | row :: rest, i, res =>
      clsiAux d x rest (i + 1) (updateRes (Int.ofNat (i + 1)) res (x.map (inLevelSetEps d row)))

/-- `constructLevelSetIndex` from `cover.cpp`: one (1-based) bin id per point,
`-1` when no bin's test succeeds; later bins overwrite earlier ones. -/
def constructLevelSetIndex (d : Nat) (x bnds : List (List ℚ)) : List ℤ :=
  clsiAux d x bnds 0 (x.map fun _ => -1)

/-- `constructIsoAlignedLevelSets` from `cover.cpp`: for each bounds row the
1-based indices of the points it contains (the `save_bounds` attribute carries
no information beyond the input row and is omitted). -/
def constructIsoAlignedLevelSets (d : Nat) (x bnds : List (List ℚ)) : List (List Nat) :=
  bnds.map fun row => which_true (x.map (inLevelSetIso d row))

/-- One dimension of the bounds computation of `constructFixedLevelSets`:
`ls_idx = suppliedIdx - 1`, `base = flen / ni`,
`interval_length = base + base*ov/(1-ov)`, `eps = interval_length/2`,
`centroid = fmin + ls_idx*base + base/2`, bounds `centroid ∓ eps`. -/
def fixedBoundsDim (suppliedIdx : ℤ) (ov ni fmin flen : ℚ) : ℚ × ℚ :=
  let base := flen / ni
  let il := base + base * ov / (1 - ov)
  let centroid := fmin + ((suppliedIdx - 1 : ℤ) : ℚ) * base + base / 2
  (centroid - il / 2, centroid + il / 2)

/-- The `2 × d` bounds matrix of one fixed-grid bin, as (min row, max row). -/
def fixedBounds (d : Nat) (idxRow : List ℤ) (overlap : List ℚ) (number_intervals : List ℤ)
    (filter_min filter_len : List ℚ) : List ℚ × List ℚ :=
  ((List.range d).map fun k =>
      (fixedBoundsDim (idxRow.getD k 0) (overlap.getD k 0) ((number_intervals.getD k 0 : ℤ) : ℚ)
        (filter_min.getD k 0) (filter_len.getD k 0)).1,
   (List.range d).map fun k =>
      (fixedBoundsDim (idxRow.getD k 0) (overlap.getD k 0) ((number_intervals.getD k 0 : ℤ) : ℚ)
        (filter_min.getD k 0) (filter_len.getD k 0)).2)

/-- `constructFixedLevelSets` from `cover.cpp`: per requested bin, the 1-based
point indices inside the bin and the bin's bounds. `d = index_set.ncol()`,
`filter_min` is row 0 of `filter_range`. -/
def constructFixedLevelSets (d : Nat) (x : List (List ℚ)) (index_set : List (List ℤ))
    (overlap : List ℚ) (number_intervals : List ℤ) (filter_min filter_len : List ℚ) :
    List (List Nat × (List ℚ × List ℚ)) :=
  index_set.map fun idxRow =>
    let bnds := fixedBounds d idxRow overlap number_intervals filter_min filter_len
    (which_true (x.map (inBoxMinMax d bnds.1 bnds.2)), bnds)

/-- The `2 × d` bounds matrix of one restrained-grid bin:
`ls_idx = suppliedIdx - 1`, `min = fmin + ls_idx*step`, `max = min + il`. -/
def restrainedBounds (d : Nat) (idxRow : List ℤ) (interval_length step_size filter_min : List ℚ) :
    List ℚ × List ℚ :=
  ((List.range d).map fun k =>
      filter_min.getD k 0 + ((idxRow.getD k 0 - 1 : ℤ) : ℚ) * step_size.getD k 0,
   (List.range d).map fun k =>
      filter_min.getD k 0 + ((idxRow.getD k 0 - 1 : ℤ) : ℚ) * step_size.getD k 0 +
        interval_length.getD k 0)

/-- `constructRestrainedLevelSets` from `cover.cpp`. -/
def constructRestrainedLevelSets (d : Nat) (x : List (List ℚ)) (index_set : List (List ℤ))
    (interval_length step_size filter_min : List ℚ) :
    List (List Nat × (List ℚ × List ℚ)) :=
  index_set.map fun idxRow =>
    let bnds := restrainedBounds d idxRow interval_length step_size filter_min
    (which_true (x.map (inBoxMinMax d bnds.1 bnds.2)), bnds)

/-- The per-pair test of `createCoverMap` (line 174 of `cover.cpp`); a level
set's bounds are its `2 × d` matrix as (min row, max row). The source's early
exit (`d_i < d && all_intersect`) does not change the result. -/
def boxesIntersect (d : Nat) (b1 b2 : List ℚ × List ℚ) : Bool :=
  (List.range d).all fun k =>
    decide (b1.1.getD k 0 ≤ b2.2.getD k 0) && decide (b1.2.getD k 0 ≥ b2.1.getD k 0)

/-- `createCoverMap` from `cover.cpp`: all pairs `(i, j)` of 0-based positions
whose bounds matrices intersect in every dimension, in i-major j-minor order. -/
def createCoverMap (d : Nat) (ls1 ls2 : List (List ℚ × List ℚ)) : List (Nat × Nat) :=
  (List.range ls1.length).flatMap fun i =>
    (List.range ls2.length).filterMap fun j =>
      if boxesIntersect d (ls1.getD i ([], [])) (ls2.getD j ([], [])) then some (i, j) else none

/-- `valid_pairs` from `cover.cpp`: row entry 0 is the source id (copied
unchecked), entries 1.. are candidate destinations, `none` (= `NA`) filtered. -/
def valid_pairs (table : List (List (Option ℤ))) : List (Option ℤ × Option ℤ) :=
  table.flatMap fun row =>
    (row.drop 1).filterMap fun entry =>
      if entry ≠ none then some (row.getD 0 none, entry) else none

/-- Number of non-sentinel entries among the candidate (non-first) columns of a
candidate-neighbor table — the count the spec calls `countNonSentinel(table)`. -/
def countNonSentinel (table : List (List (Option ℤ))) : Nat :=
  (table.map fun row => ((row.drop 1).filter fun e => decide (e ≠ none)).length).sum

/-- One insertion into the `std::map<int, std::vector<int>>` of
`edgelist_to_adjacencylist`, modelled as a key-sorted association list:
append `b` to the vector of key `a`, creating the key at its sorted place if
absent. -/
def insertEdge : List (ℤ × List ℤ) → ℤ → ℤ → List (ℤ × List ℤ)
  | [], a, b => [(a, [b])]
  | (k, vs) :: rest, a, b =>
      if a < k then (a, [b]) :: (k, vs) :: rest
      else if a = k then (k, vs ++ [b]) :: rest
      else (k, vs) :: insertEdge rest a b

/-- `edgelist_to_adjacencylist` from `cover.cpp`: fold the edge rows into the
key-sorted map; `wrap` returns the entries in ascending key order. -/
def edgelist_to_adjacencylist (el : List (ℤ × ℤ)) : List (ℤ × List ℤ) :=
  el.foldl (fun m e => insertEdge m e.1 e.2) []

/-- First-match lookup in an association list (observation function used to
state properties of `edgelist_to_adjacencylist`). -/
def alookup (k : ℤ) : List (ℤ × List ℤ) → Option (List ℤ)
  | [] => none
  | (q, vs) :: rest => if k = q then some vs else alookup k rest

/-- `some l` for a nonempty list, `none` for the empty one (observation helper
used to state the `edgelist_to_adjacencylist` invariant). -/
def optList (l : List ℤ) : Option (List ℤ) := if l = [] then none else some l

/-- One row of `dist_to_boxes`: the `set_difference` of `[1..num_intervals]`
and `{pos}` (for `pos` in range, the order-preserving filter), and per target
`offset = |(target - pos - 1) * interval_length|`,
`distance = target < pos ? dtl + offset : dtu + offset`. -/
def distToBoxesRow (interval_length : ℚ) (num_intervals : Nat) (pos : ℤ) (dtl dtu : ℚ) :
    List ℤ × List ℚ :=
  let targets := ((List.range num_intervals).map fun t => (t + 1 : ℤ)).filter fun t =>
    decide (t ≠ pos)
  (targets, targets.map fun t =>
    let offset := |((t - pos - 1 : ℤ) : ℚ) * interval_length|
    if t < pos then dtl + offset else dtu + offset)

/-- `dist_to_boxes` from `cover.cpp`: per input point the row of target
positions and the row of distances. -/
def dist_to_boxes (positions : List ℤ) (interval_length : ℚ) (num_intervals : Nat)
    (dist_to_lower dist_to_upper : List ℚ) : List (List ℤ) × List (List ℚ) :=
  let rows := (List.range positions.length).map fun i =>
    distToBoxesRow interval_length num_intervals (positions.getD i 0)
      (dist_to_lower.getD i 0) (dist_to_upper.getD i 0)
  (rows.map Prod.fst, rows.map Prod.snd)

/-! ## Helper lemmas -/

theorem which_true_aux_mem (bs : List Bool) : ∀ (i j : Nat),
    j ∈ which_true_aux bs i ↔ ∃ t, bs[t]? = some true ∧ j = i + t + 1 := by
  induction bs with
  | nil => simp [which_true_aux]
  | cons b rest ih =>
    intro i j
    cases b with
    | false =>
      simp only [which_true_aux, Bool.false_eq_true, if_false, ih]
      constructor
      · rintro ⟨t, ht, rfl⟩
        exact ⟨t + 1, by simpa using ht, by omega⟩
      · rintro ⟨t, ht, rfl⟩
        cases t with
        | zero => simp at ht
        | succ t => exact ⟨t, by simpa using ht, by omega⟩
    | true =>
      simp only [which_true_aux, if_true, List.mem_cons, ih]
      constructor
      · rintro (rfl | ⟨t, ht, rfl⟩)
        · exact ⟨0, by simp, by omega⟩
        · exact ⟨t + 1, by simpa using ht, by omega⟩
      · rintro ⟨t, ht, rfl⟩
        cases t with
        | zero => exact Or.inl (by omega)
        | succ t => exact Or.inr ⟨t, by simpa using ht, by omega⟩

theorem which_true_aux_sorted (bs : List Bool) : ∀ i : Nat,
    (which_true_aux bs i).Pairwise (· < ·) ∧ ∀ m ∈ which_true_aux bs i, i < m := by
  induction bs with
  | nil => simp [which_true_aux]
  | cons b rest ih =>
    intro i
    cases b with
    | false =>
      simp only [which_true_aux, Bool.false_eq_true, if_false]
      exact ⟨(ih (i + 1)).1, fun m hm => by have := (ih (i + 1)).2 m hm; omega⟩
    | true =>
      simp only [which_true_aux, if_true]
      refine ⟨List.Pairwise.cons (fun m hm => ?_) (ih (i + 1)).1, fun m hm => ?_⟩
      · have := (ih (i + 1)).2 m hm; omega
      · rcases List.mem_cons.mp hm with rfl | hm
        · omega
        · have := (ih (i + 1)).2 m hm; omega

theorem inLevelSetIso_eq_true_iff (d : Nat) (bndsRow p : List ℚ) :
    inLevelSetIso d bndsRow p = true ↔
      ∀ k, k < d → bndsRow.getD k 0 ≤ p.getD k 0 ∧ p.getD k 0 ≤ bndsRow.getD (d + k) 0 := by
  simp [inLevelSetIso, List.all_eq_true, List.mem_range, Bool.and_eq_true, decide_eq_true_eq,
    ge_iff_le]

theorem updateRes_length (v : ℤ) : ∀ (res : List ℤ) (ts : List Bool),
    (updateRes v res ts).length = res.length := by
  intro res
  induction res with
  | nil => intro ts; cases ts <;> rfl
  | cons r rs ih =>
    intro ts
    cases ts with
    | nil => rfl
    | cons t ts => simp [updateRes, ih]

theorem updateRes_getD (v : ℤ) : ∀ (res : List ℤ) (ts : List Bool) (p : Nat),
    p < res.length → p < ts.length →
    (updateRes v res ts).getD p 0 = if ts.getD p false then v else res.getD p 0 := by
  intro res
  induction res with
  | nil => intro ts p h; simp at h
  | cons r rs ih =>
    intro ts p hp ht
    cases ts with
    | nil => simp at ht
    | cons t ts =>
      cases p with
      | zero => simp [updateRes]
      | succ p =>
        simp only [updateRes, List.getD_cons_succ]
        exact ih ts p (by simpa using hp) (by simpa using ht)

theorem filter_range_succ (P : Nat → Bool) (n : Nat) :
    (List.range (n + 1)).filter P =
      (if P 0 then [0] else []) ++ ((List.range n).filter fun j => P (j + 1)).map Nat.succ := by
  rw [List.range_succ_eq_map, List.filter_cons, List.filter_map]
  have hc : (P ∘ Nat.succ) = fun j => P (j + 1) := rfl
  rw [hc]
  cases hP : P 0 <;> simp

theorem clsiAux_getD (d : Nat) (x : List (List ℚ)) : ∀ (bs : List (List ℚ)) (i : Nat)
    (res : List ℤ) (p : Nat), res.length = x.length → p < x.length →
    (clsiAux d x bs i res).getD p 0 =
      match ((List.range bs.length).filter fun j =>
          inLevelSetEps d (bs.getD j []) (x.getD p [])).getLast? with
      | some j => ((i + j + 1 : Nat) : ℤ)
      | none => res.getD p 0 := by
  intro bs
  induction bs with
  | nil => intro i res p hres hp; simp [clsiAux]
  | cons b rest ih =>
    intro i res p hres hp
    have hlen : (updateRes (Int.ofNat (i + 1)) res (x.map (inLevelSetEps d b))).length =
        x.length := by rw [updateRes_length]; exact hres
    have hstep := ih (i + 1) (updateRes (Int.ofNat (i + 1)) res (x.map (inLevelSetEps d b))) p
      hlen hp
    rw [clsiAux, hstep]
    have htest : (x.map (inLevelSetEps d b)).getD p false = inLevelSetEps d b (x.getD p []) := by
      simp [List.getD_eq_getElem?_getD, List.getElem?_map, List.getElem?_eq_getElem hp]
    have hupd := updateRes_getD (Int.ofNat (i + 1)) res (x.map (inLevelSetEps d b)) p
      (by omega) (by simpa using hp)
    rw [htest] at hupd
    have hfilter := filter_range_succ
      (fun j => inLevelSetEps d ((b :: rest).getD j []) (x.getD p [])) rest.length
    have hshift : (fun j => inLevelSetEps d ((b :: rest).getD (j + 1) []) (x.getD p [])) =
        fun j => inLevelSetEps d (rest.getD j []) (x.getD p []) := rfl
    rw [hshift] at hfilter
    simp only [List.length_cons, hfilter, List.getLast?_append, List.getLast?_map]
    cases hlast : ((List.range rest.length).filter fun j =>
        inLevelSetEps d (rest.getD j []) (x.getD p [])).getLast? with
    | none =>
      simp at hupd
      by_cases hb : inLevelSetEps d b ((x[p]?).getD []) = true
      · simp [hb, hupd]
      · simp only [Bool.not_eq_true] at hb
        simp [hb, hupd]
    | some j =>
      simp
      omega

/-! ## Claim theorems -/

/-- C10: every per-bin point list returned by `constructIsoAlignedLevelSets`,
`constructFixedLevelSets` and `constructRestrainedLevelSets` is a strictly
increasing sequence of 1-based point positions. -/
theorem level_set_point_lists_sorted :
    (∀ (d : Nat) (x bnds : List (List ℚ)) (ls : List Nat),
        ls ∈ constructIsoAlignedLevelSets d x bnds →
          ls.Pairwise (· < ·) ∧ ∀ m ∈ ls, 1 ≤ m) ∧
    (∀ (d : Nat) (x : List (List ℚ)) (index_set : List (List ℤ)) (overlap : List ℚ)
        (number_intervals : List ℤ) (filter_min filter_len : List ℚ)
        (r : List Nat × (List ℚ × List ℚ)),
        r ∈ constructFixedLevelSets d x index_set overlap number_intervals filter_min filter_len →
          r.1.Pairwise (· < ·) ∧ ∀ m ∈ r.1, 1 ≤ m) ∧
    (∀ (d : Nat) (x : List (List ℚ)) (index_set : List (List ℤ))
        (interval_length step_size filter_min : List ℚ) (r : List Nat × (List ℚ × List ℚ)),
        r ∈ constructRestrainedLevelSets d x index_set interval_length step_size filter_min →
          r.1.Pairwise (· < ·) ∧ ∀ m ∈ r.1, 1 ≤ m) := by
  refine ⟨fun d x bnds ls hls => ?_, fun d x is ov ni fmin flen r hr => ?_,
    fun d x is il ss fmin r hr => ?_⟩
  · rcases List.mem_map.mp hls with ⟨row, -, rfl⟩
    exact ⟨(which_true_aux_sorted _ 0).1, fun m hm => (which_true_aux_sorted _ 0).2 m hm⟩
  · rcases List.mem_map.mp hr with ⟨row, -, rfl⟩
    exact ⟨(which_true_aux_sorted _ 0).1, fun m hm => (which_true_aux_sorted _ 0).2 m hm⟩
  · rcases List.mem_map.mp hr with ⟨row, -, rfl⟩
    exact ⟨(which_true_aux_sorted _ 0).1, fun m hm => (which_true_aux_sorted _ 0).2 m hm⟩

theorem level_set_point_lists_sorted_witness :
    ([1, 2] : List Nat).Pairwise (· < ·) ∧ ∀ m ∈ ([1, 2] : List Nat), 1 ≤ m :=
  level_set_point_lists_sorted.1 1 [[0], [1]] [[0, 2]] [1, 2] (by with_unfolding_all decide)

/-- C9: `constructIsoAlignedLevelSets` puts (1-based) point index `p + 1` into
the set of Box `i` iff the point satisfies the inclusive per-dimension range
test against Box `i`, with no epsilon tolerance. -/
theorem iso_aligned_membership_iff (d : Nat) (x bnds : List (List ℚ)) (i p : Nat) :
    (p + 1) ∈ (constructIsoAlignedLevelSets d x bnds).getD i [] ↔
      i < bnds.length ∧ p < x.length ∧ ∀ k, k < d →
        (bnds.getD i []).getD k 0 ≤ (x.getD p []).getD k 0 ∧
        (x.getD p []).getD k 0 ≤ (bnds.getD i []).getD (d + k) 0 := by
  by_cases hi : i < bnds.length
  · have h1 : (constructIsoAlignedLevelSets d x bnds).getD i [] =
        which_true (x.map (inLevelSetIso d (bnds.getD i []))) := by
      simp [constructIsoAlignedLevelSets, List.getD_eq_getElem?_getD, List.getElem?_map,
        List.getElem?_eq_getElem hi]
    rw [h1, which_true, which_true_aux_mem]
    constructor
    · rintro ⟨t, ht, hj⟩
      have hpt : t = p := by omega
      subst hpt
      rw [List.getElem?_map] at ht
      rcases Option.map_eq_some'.mp ht with ⟨pt, hpt, htest⟩
      rcases List.getElem?_eq_some_iff.mp hpt with ⟨hlt, hval⟩
      refine ⟨hi, hlt, ?_⟩
      have hget : x.getD t [] = pt := by
        simp [List.getD_eq_getElem?_getD, hpt]
      rw [hget]
      exact (inLevelSetIso_eq_true_iff d _ pt).mp htest
    · rintro ⟨-, hp, hbnd⟩
      refine ⟨p, ?_, by omega⟩
      rw [List.getElem?_map]
      have hpt : x[p]? = some (x.getD p []) := by
        simp [List.getD_eq_getElem?_getD, List.getElem?_eq_getElem hp]
      rw [hpt]
      exact congrArg some ((inLevelSetIso_eq_true_iff d _ _).mpr hbnd)
  · have h1 : (constructIsoAlignedLevelSets d x bnds).getD i [] = [] := by
      apply List.getD_eq_default
      simpa [constructIsoAlignedLevelSets] using Nat.le_of_not_lt hi
    rw [h1]
    simp [hi]

theorem iso_aligned_membership_iff_witness :
    (1 + 1) ∈ (constructIsoAlignedLevelSets 1 [[0], [1]] [[0, 2]]).getD 0 [] :=
  (iso_aligned_membership_iff 1 [[0], [1]] [[0, 2]] 0 1).mpr
    (by refine ⟨by decide, by decide, fun k hk => ?_⟩; interval_cases k; norm_num)

/-- C3, counterexample: the point `-2⁻⁵³` lies strictly below the lower bound
`0` of the only bin, yet `constructLevelSetIndex` assigns it to that bin,
because the code subtracts one machine epsilon from the lower bound as well. -/
theorem disjoint_index_lower_eps_counterexample :
    constructLevelSetIndex 1 [[-(1 / 2 ^ 53)]] [[0, 1]] = [1] ∧
      ¬ ((0 : ℚ) ≤ -(1 / 2 ^ 53)) := by
  with_unfolding_all decide

/-- C3, amended: the containment test used by `constructLevelSetIndex` accepts
a point iff, in every dimension, the coordinate is at least the lower bound
minus one machine epsilon and at most the upper bound plus one machine
epsilon — the epsilon slack is applied to both comparisons, not only to the
upper one. -/
theorem disjoint_membership_eps_both_sides (d : Nat) (bndsRow p : List ℚ) :
    inLevelSetEps d bndsRow p = true ↔
      ∀ k, k < d → bndsRow.getD k 0 - machineEps ≤ p.getD k 0 ∧
        p.getD k 0 ≤ bndsRow.getD (d + k) 0 + machineEps := by
  simp [inLevelSetEps, List.all_eq_true, List.mem_range, Bool.and_eq_true, decide_eq_true_eq,
    ge_iff_le]

theorem disjoint_membership_eps_both_sides_witness :
    inLevelSetEps 1 [0, 1] [1 / 2] = true :=
  (disjoint_membership_eps_both_sides 1 [0, 1] [1 / 2]).mpr
    (by intro k hk; interval_cases k; norm_num [machineEps])

theorem fixedBounds_getD (d : Nat) (idxRow : List ℤ) (ov : List ℚ) (ni : List ℤ)
    (fmin flen : List ℚ) (k : Nat) (hk : k < d) :
    (fixedBounds d idxRow ov ni fmin flen).1.getD k 0 =
        (fixedBoundsDim (idxRow.getD k 0) (ov.getD k 0) ((ni.getD k 0 : ℤ) : ℚ)
          (fmin.getD k 0) (flen.getD k 0)).1 ∧
      (fixedBounds d idxRow ov ni fmin flen).2.getD k 0 =
        (fixedBoundsDim (idxRow.getD k 0) (ov.getD k 0) ((ni.getD k 0 : ℤ) : ℚ)
          (fmin.getD k 0) (flen.getD k 0)).2 := by
  constructor
  · simp [fixedBounds, List.getD_eq_getElem?_getD, List.getElem?_map, List.getElem?_range, hk]
  · simp [fixedBounds, List.getD_eq_getElem?_getD, List.getElem?_map, List.getElem?_range, hk]

/-- C1, counterexample: with the claim's inputs `filterRange = [[0,10]]` (so
`filterLen = [10]`), `numIntervals = [5]`, `overlap = 0.2` and
`indexSet = [[0],[1]]`, `constructFixedLevelSets` returns bin bounds
`[-2.25, 0.25]` and `[-0.25, 2.25]`, not the claimed `[-0.25, 2.25]` and
`[1.75, 4.25]`: supplied grid coordinates are not taken as 0-based values. -/
theorem fixed_cover_zero_based_counterexample :
    (constructFixedLevelSets 1 [] [[0], [1]] [1 / 5] [5] [0] [10]).map Prod.snd =
        [([-9 / 4], [1 / 4]), ([-1 / 4], [9 / 4])] ∧
      (constructFixedLevelSets 1 [] [[0], [1]] [1 / 5] [5] [0] [10]).map Prod.snd ≠
        [([-1 / 4], [9 / 4]), ([7 / 4], [17 / 4])] := by
  with_unfolding_all decide

/-- C1, amended: the grid coordinates supplied in `index_set` are 1-based and
the code uses `gridCoord = suppliedIdx - 1`; with `indexSet = [[1],[2]]` the
scenario returns bounds `[-0.25, 2.25]` and `[1.75, 4.25]`, and in general
every requested bin's Box equals `centroid ± halfWidth` with
`centroid = filterMin + (suppliedIdx - 1)*baseLength + baseLength/2` and
`halfWidth = (baseLength + baseLength*overlap/(1-overlap))/2`,
`baseLength = filterLen/numIntervals`. -/
theorem fixed_cover_bounds_formula :
    (∀ (d : Nat) (x : List (List ℚ)) (index_set : List (List ℤ)) (overlap : List ℚ)
        (number_intervals : List ℤ) (filter_min filter_len : List ℚ) (i k : Nat),
        i < index_set.length → k < d →
        ((constructFixedLevelSets d x index_set overlap number_intervals filter_min
              filter_len).getD i ([], ([], []))).2.1.getD k 0 =
            filter_min.getD k 0 +
                (((index_set.getD i []).getD k 0 - 1 : ℤ) : ℚ) *
                  (filter_len.getD k 0 / ((number_intervals.getD k 0 : ℤ) : ℚ)) +
                filter_len.getD k 0 / ((number_intervals.getD k 0 : ℤ) : ℚ) / 2 -
              (filter_len.getD k 0 / ((number_intervals.getD k 0 : ℤ) : ℚ) +
                  filter_len.getD k 0 / ((number_intervals.getD k 0 : ℤ) : ℚ) *
                    overlap.getD k 0 / (1 - overlap.getD k 0)) / 2 ∧
          ((constructFixedLevelSets d x index_set overlap number_intervals filter_min
              filter_len).getD i ([], ([], []))).2.2.getD k 0 =
            filter_min.getD k 0 +
                (((index_set.getD i []).getD k 0 - 1 : ℤ) : ℚ) *
                  (filter_len.getD k 0 / ((number_intervals.getD k 0 : ℤ) : ℚ)) +
                filter_len.getD k 0 / ((number_intervals.getD k 0 : ℤ) : ℚ) / 2 +
              (filter_len.getD k 0 / ((number_intervals.getD k 0 : ℤ) : ℚ) +
                  filter_len.getD k 0 / ((number_intervals.getD k 0 : ℤ) : ℚ) *
                    overlap.getD k 0 / (1 - overlap.getD k 0)) / 2) ∧
      (constructFixedLevelSets 1 [] [[1], [2]] [1 / 5] [5] [0] [10]).map Prod.snd =
        [([-1 / 4], [9 / 4]), ([7 / 4], [17 / 4])] := by
  constructor
  · intro d x index_set overlap number_intervals filter_min filter_len i k hi hk
    have h1 : (constructFixedLevelSets d x index_set overlap number_intervals filter_min
        filter_len).getD i ([], ([], [])) =
        (which_true (x.map (inBoxMinMax d
            (fixedBounds d (index_set.getD i []) overlap number_intervals filter_min
              filter_len).1
            (fixedBounds d (index_set.getD i []) overlap number_intervals filter_min
              filter_len).2)),
          fixedBounds d (index_set.getD i []) overlap number_intervals filter_min filter_len) := by
      simp [constructFixedLevelSets, List.getD_eq_getElem?_getD, List.getElem?_map,
        List.getElem?_eq_getElem hi]
    rw [h1]
    rcases fixedBounds_getD d (index_set.getD i []) overlap number_intervals filter_min
      filter_len k hk with ⟨hlo, hhi⟩
    constructor
    · rw [show ((which_true (x.map (inBoxMinMax d
            (fixedBounds d (index_set.getD i []) overlap number_intervals filter_min
              filter_len).1
            (fixedBounds d (index_set.getD i []) overlap number_intervals filter_min
              filter_len).2)),
          fixedBounds d (index_set.getD i []) overlap number_intervals filter_min
            filter_len)).2.1 =
          (fixedBounds d (index_set.getD i []) overlap number_intervals filter_min
            filter_len).1 from rfl, hlo, fixedBoundsDim]
    · rw [show ((which_true (x.map (inBoxMinMax d
            (fixedBounds d (index_set.getD i []) overlap number_intervals filter_min
              filter_len).1
            (fixedBounds d (index_set.getD i []) overlap number_intervals filter_min
              filter_len).2)),
          fixedBounds d (index_set.getD i []) overlap number_intervals filter_min
            filter_len)).2.2 =
          (fixedBounds d (index_set.getD i []) overlap number_intervals filter_min
            filter_len).2 from rfl, hhi, fixedBoundsDim]
  · with_unfolding_all decide

theorem fixed_cover_bounds_formula_witness :
    ((constructFixedLevelSets 1 [] [[1], [2]] [1 / 5] [5] [0] [10]).getD 0
        ([], ([], []))).2.1.getD 0 0 = -1 / 4 := by
  have h := fixed_cover_bounds_formula.1 1 [] [[1], [2]] [1 / 5] [5] [0] [10] 0 0
    (by decide) (by decide)
  rw [h.1]
  norm_num

/-- C4: `constructLevelSetIndex` tests bins in cover order and each bin's
containment test unconditionally overwrites the earlier assignment, so every
point contained in several bins gets the (1-based) id of the last matching bin
in cover order, and every point contained in no bin keeps the sentinel `-1`. -/
theorem disjoint_index_last_match_wins (d : Nat) (x bnds : List (List ℚ)) (p : Nat)
    (hp : p < x.length) :
    (constructLevelSetIndex d x bnds).getD p 0 =
      match ((List.range bnds.length).filter fun j =>
          inLevelSetEps d (bnds.getD j []) (x.getD p [])).getLast? with
      | some j => ((j + 1 : Nat) : ℤ)
      | none => -1 := by
  have h := clsiAux_getD d x bnds 0 (x.map fun _ => (-1 : ℤ)) p (by simp) hp
  rw [constructLevelSetIndex, h]
  have hres : (x.map fun _ => (-1 : ℤ)).getD p 0 = -1 := by
    simp [List.getD_eq_getElem?_getD, List.getElem?_map, List.getElem?_eq_getElem hp,
      List.getElem?_replicate, hp]
  rw [hres]
  cases hl : ((List.range bnds.length).filter fun j =>
      inLevelSetEps d (bnds.getD j []) (x.getD p [])).getLast? with
  | none => rfl
  | some j => simp

theorem disjoint_index_last_match_wins_witness :
    (constructLevelSetIndex 1 [[0]] [[-1, 1], [-1, 1]]).getD 0 0 = 2 := by
  have h := disjoint_index_last_match_wins 1 [[0]] [[-1, 1], [-1, 1]] 0 (by decide)
  rw [h]
  with_unfolding_all decide

theorem boxesIntersect_iff (d : Nat) (b1 b2 : List ℚ × List ℚ) :
    boxesIntersect d b1 b2 = true ↔ ∀ k, k < d →
      b1.1.getD k 0 ≤ b2.2.getD k 0 ∧ b1.2.getD k 0 ≥ b2.1.getD k 0 := by
  simp [boxesIntersect, List.all_eq_true, List.mem_range, Bool.and_eq_true, decide_eq_true_eq]

/-- C5, counterexample: two intersecting one-box covers yield the pair
`(0, 0)`, not `(1, 1)`: `createCoverMap` emits the raw 0-based loop positions,
so its output is 0-based at the external boundary. -/
theorem coverMap_zero_based_counterexample :
    createCoverMap 1 [([0], [1])] [([0], [1])] = [(0, 0)] ∧
      ((0, 0) : Nat × Nat) ≠ (1, 1) := by
  constructor
  · with_unfolding_all decide
  · decide

/-- C5, amended: `createCoverMap` returns exactly the pairs `(i, j)` of
0-based bin positions — `i` over cover 1, `j` over cover 2 — whose bounds pass
the per-dimension interval-overlap test in every dimension, in cover-1-major,
cover-2-minor order, with no duplicate pair. -/
theorem coverMap_pairs_spec (d : Nat) (ls1 ls2 : List (List ℚ × List ℚ)) :
    (∀ i j : Nat, (i, j) ∈ createCoverMap d ls1 ls2 ↔
        i < ls1.length ∧ j < ls2.length ∧ ∀ k, k < d →
          (ls1.getD i ([], [])).1.getD k 0 ≤ (ls2.getD j ([], [])).2.getD k 0 ∧
          (ls1.getD i ([], [])).2.getD k 0 ≥ (ls2.getD j ([], [])).1.getD k 0) ∧
      (createCoverMap d ls1 ls2).Pairwise
        (fun u v => u.1 < v.1 ∨ (u.1 = v.1 ∧ u.2 < v.2)) ∧
      (createCoverMap d ls1 ls2).Nodup := by
  have hmem : ∀ (a : Nat) (pr : Nat × Nat),
      pr ∈ (List.range ls2.length).filterMap (fun j =>
        if boxesIntersect d (ls1.getD a ([], [])) (ls2.getD j ([], [])) then some (a, j)
        else none) ↔
      pr.1 = a ∧ pr.2 < ls2.length ∧
        boxesIntersect d (ls1.getD a ([], [])) (ls2.getD pr.2 ([], [])) = true := by
    intro a pr
    rw [List.mem_filterMap]
    constructor
    · rintro ⟨j, hj, hif⟩
      rw [List.mem_range] at hj
      by_cases hc : boxesIntersect d (ls1.getD a ([], [])) (ls2.getD j ([], [])) = true
      · rw [if_pos hc] at hif
        cases hif
        exact ⟨rfl, hj, hc⟩
      · rw [if_neg hc] at hif
        cases hif
    · rintro ⟨h1, h2, h3⟩
      refine ⟨pr.2, List.mem_range.mpr h2, ?_⟩
      rw [if_pos h3, ← h1]
  have hpw : (createCoverMap d ls1 ls2).Pairwise
      (fun u v => u.1 < v.1 ∨ (u.1 = v.1 ∧ u.2 < v.2)) := by
    rw [createCoverMap, List.flatMap_def, List.pairwise_flatten]
    constructor
    · intro l hl
      rcases List.mem_map.mp hl with ⟨a, -, rfl⟩
      apply List.pairwise_filterMap.mpr
      apply (List.pairwise_lt_range ls2.length).imp
      intro u v huv pr hpr qr hqr
      by_cases hcu : boxesIntersect d (ls1.getD a ([], [])) (ls2.getD u ([], [])) = true
      · rw [if_pos hcu] at hpr
        by_cases hcv : boxesIntersect d (ls1.getD a ([], [])) (ls2.getD v ([], [])) = true
        · rw [if_pos hcv] at hqr
          cases hpr
          cases hqr
          exact Or.inr ⟨rfl, huv⟩
        · rw [if_neg hcv] at hqr
          cases hqr
      · rw [if_pos] at hpr
        · by_cases hcv : boxesIntersect d (ls1.getD a ([], [])) (ls2.getD v ([], [])) = true
          · rw [if_pos hcv] at hqr
            cases hpr
            cases hqr
            exact Or.inr ⟨rfl, huv⟩
          · rw [if_neg hcv] at hqr
            cases hqr
        · exact Decidable.byContradiction fun hcon => by
            rw [if_neg (by simpa using hcon)] at hpr
            cases hpr
    · apply List.pairwise_map.mpr
      apply (List.pairwise_lt_range ls1.length).imp
      intro u v huv pr hpr qr hqr
      have h1 := ((hmem u pr).mp hpr).1
      have h2 := ((hmem v qr).mp hqr).1
      exact Or.inl (by omega)
  refine ⟨?_, hpw, ?_⟩
  · intro i j
    rw [createCoverMap, List.mem_flatMap]
    constructor
    · rintro ⟨a, ha, hpr⟩
      rcases (hmem a (i, j)).mp hpr with ⟨h1, h2, h3⟩
      rw [List.mem_range] at ha
      subst h1
      exact ⟨ha, h2, (boxesIntersect_iff d _ _).mp h3⟩
    · rintro ⟨h1, h2, h3⟩
      exact ⟨i, List.mem_range.mpr h1,
        (hmem i (i, j)).mpr ⟨rfl, h2, (boxesIntersect_iff d _ _).mpr h3⟩⟩
  · exact hpw.imp fun {u v} huv => by
      rcases huv with h | ⟨h1, h2⟩
      · exact fun hc => absurd (congrArg Prod.fst hc) (by omega)
      · exact fun hc => absurd (congrArg Prod.snd hc) (by omega)

theorem coverMap_pairs_spec_witness :
    ((0, 0) : Nat × Nat) ∈ createCoverMap 1 [([0], [1])] [([0], [1])] :=
  ((coverMap_pairs_spec 1 [([0], [1])] [([0], [1])]).1 0 0).mpr
    (by refine ⟨by decide, by decide, fun k hk => ?_⟩; interval_cases k; norm_num)

/-- C2, counterexample: in the claim's own scenario (`overlap = 0.2`,
`baseLength = 2`) the two grid-adjacent bins `[-0.25, 2.25]` and
`[1.75, 4.25]` overlap by `0.5`, while `overlap * baseLength = 0.4`. -/
theorem fixed_adjacent_overlap_counterexample :
    (fixedBoundsDim 1 (1 / 5) 5 0 10).2 - (fixedBoundsDim 2 (1 / 5) 5 0 10).1 = 1 / 2 ∧
      (1 / 5 : ℚ) * (10 / 5) = 2 / 5 ∧ (1 / 2 : ℚ) ≠ 2 / 5 := by
  with_unfolding_all decide

/-- C2, amended: two fixed-grid bins whose grid coordinates differ by exactly
1 in a dimension overlap along that dimension by exactly
`baseLength * overlap/(1 - overlap)` (for `overlap < 1` this is
`overlap * intervalLength`, the overlap fraction of the bin's full width), not
`overlap * baseLength`. The overlap is the upper bound of the lower bin minus
the lower bound of the upper bin. -/
theorem fixed_adjacent_overlap_amount (c : ℤ) (ov ni fmin flen : ℚ) :
    (fixedBoundsDim c ov ni fmin flen).2 - (fixedBoundsDim (c + 1) ov ni fmin flen).1 =
      flen / ni * ov / (1 - ov) := by
  simp only [fixedBoundsDim]
  push_cast
  ring

theorem filterMap_valid_row (src : Option ℤ) : ∀ l : List (Option ℤ),
    (l.filterMap fun entry => if entry ≠ none then some (src, entry) else none) =
      (l.filter fun e => decide (e ≠ none)).map fun e => (src, e) := by
  intro l
  induction l with
  | nil => rfl
  | cons a l ih =>
    by_cases ha : a = none
    · subst ha
      simpa [List.filterMap_cons, List.filter_cons] using ih
    · simpa [List.filterMap_cons, List.filter_cons, ha] using ih

/-- C7: `valid_pairs` emits exactly the (source, destination) pairs whose
destination slot is not the sentinel, in row-major then column-major order;
provided the table is a well-formed candidate-neighbor table (every row's
first entry, the bin's own id, is not the sentinel), no emitted pair contains
the sentinel in either column, and the number of pairs equals
`countNonSentinel table`. -/
theorem valid_pairs_spec (table : List (List (Option ℤ)))
    (h : ∀ row ∈ table, row.getD 0 none ≠ none) :
    (∀ pr ∈ valid_pairs table, pr.1 ≠ none ∧ pr.2 ≠ none) ∧
      (valid_pairs table).length = countNonSentinel table ∧
      valid_pairs table = table.flatMap fun row =>
        ((row.drop 1).filter fun e => decide (e ≠ none)).map fun e =>
          (row.getD 0 none, e) := by
  have hcanon : valid_pairs table = table.flatMap fun row =>
      ((row.drop 1).filter fun e => decide (e ≠ none)).map fun e =>
        (row.getD 0 none, e) := by
    rw [valid_pairs]
    simp only [filterMap_valid_row]
  refine ⟨?_, ?_, hcanon⟩
  · intro pr hpr
    rw [hcanon, List.mem_flatMap] at hpr
    rcases hpr with ⟨row, hrow, hpr⟩
    rcases List.mem_map.mp hpr with ⟨e, he, rfl⟩
    have he2 := List.of_mem_filter he
    refine ⟨h row hrow, by simpa using he2⟩
  · rw [hcanon, List.flatMap_def, List.length_flatten, List.map_map, countNonSentinel]
    simp [Function.comp_def, List.length_map]

theorem valid_pairs_spec_witness :
    (∀ pr ∈ valid_pairs [[some 1, some 2, none], [some 3, none, some 4]],
        pr.1 ≠ none ∧ pr.2 ≠ none) ∧
      (valid_pairs [[some 1, some 2, none], [some 3, none, some 4]]).length =
        countNonSentinel [[some 1, some 2, none], [some 3, none, some 4]] ∧
      valid_pairs [[some 1, some 2, none], [some 3, none, some 4]] =
        [[some 1, some 2, none], [some 3, none, some 4]].flatMap fun row =>
          ((row.drop 1).filter fun e => decide (e ≠ none)).map fun e =>
            (row.getD 0 none, e) :=
  valid_pairs_spec [[some 1, some 2, none], [some 3, none, some 4]] (by decide)

theorem alookup_eq_none_of_forall (k : ℤ) : ∀ m : List (ℤ × List ℤ),
    (∀ q ∈ m, k ≠ q.1) → alookup k m = none := by
  intro m
  induction m with
  | nil => intro _; rfl
  | cons q rest ih =>
    obtain ⟨k0, vs0⟩ := q
    intro hq
    have h0 : k ≠ k0 := hq (k0, vs0) (List.mem_cons_self _ _)
    simp only [alookup, if_neg h0]
    exact ih fun r hr => hq r (List.mem_cons_of_mem _ hr)

theorem insertEdge_fst_mem : ∀ (m : List (ℤ × List ℤ)) (a b : ℤ) (q : ℤ × List ℤ),
    q ∈ insertEdge m a b → q.1 = a ∨ q.1 ∈ m.map Prod.fst := by
  intro m a b
  induction m with
  | nil =>
    intro q hq
    rw [List.mem_singleton.mp hq]
    exact Or.inl rfl
  | cons kv rest ih =>
    obtain ⟨k, vs⟩ := kv
    intro q hq
    simp only [insertEdge] at hq
    split_ifs at hq with h1 h2
    · rcases List.mem_cons.mp hq with rfl | hq
      · exact Or.inl rfl
      · rcases List.mem_cons.mp hq with rfl | hq
        · exact Or.inr (by rw [List.map_cons]; exact List.mem_cons_self _ _)
        · exact Or.inr (by
            rw [List.map_cons]
            exact List.mem_cons_of_mem _ (List.mem_map_of_mem Prod.fst hq))
    · rcases List.mem_cons.mp hq with rfl | hq
      · exact Or.inl h2.symm
      · exact Or.inr (by
          rw [List.map_cons]
          exact List.mem_cons_of_mem _ (List.mem_map_of_mem Prod.fst hq))
    · rcases List.mem_cons.mp hq with rfl | hq
      · exact Or.inr (by rw [List.map_cons]; exact List.mem_cons_self _ _)
      · rcases ih q hq with h | h
        · exact Or.inl h
        · exact Or.inr (by rw [List.map_cons]; exact List.mem_cons_of_mem _ h)

theorem insertEdge_sorted : ∀ (m : List (ℤ × List ℤ)) (a b : ℤ),
    m.Pairwise (fun u v => u.1 < v.1) →
    (insertEdge m a b).Pairwise (fun u v => u.1 < v.1) := by
  intro m a b
  induction m with
  | nil => intro _; simp [insertEdge]
  | cons kv rest ih =>
    obtain ⟨k, vs⟩ := kv
    intro hs
    rw [List.pairwise_cons] at hs
    obtain ⟨hk, hrest⟩ := hs
    simp only [insertEdge]
    split_ifs with h1 h2
    · refine List.Pairwise.cons ?_ (List.Pairwise.cons hk hrest)
      intro q hq
      rcases List.mem_cons.mp hq with rfl | hq
      · exact h1
      · exact lt_trans h1 (hk q hq)
    · exact List.Pairwise.cons hk hrest
    · refine List.Pairwise.cons ?_ (ih hrest)
      intro q hq
      rcases insertEdge_fst_mem rest a b q hq with h | h
      · rw [h]; omega
      · rcases List.mem_map.mp h with ⟨r, hr, hqr⟩
        rw [← hqr]
        exact hk r hr

theorem alookup_insertEdge_self : ∀ (m : List (ℤ × List ℤ)) (a b : ℤ),
    m.Pairwise (fun u v => u.1 < v.1) →
    alookup a (insertEdge m a b) = some ((alookup a m).getD [] ++ [b]) := by
  intro m a b
  induction m with
  | nil => intro _; simp [insertEdge, alookup]
  | cons kv rest ih =>
    obtain ⟨k, vs⟩ := kv
    intro hs
    rw [List.pairwise_cons] at hs
    obtain ⟨hk, hrest⟩ := hs
    simp only [insertEdge]
    split_ifs with h1 h2
    · have hne : a ≠ k := ne_of_lt h1
      have hnone : alookup a rest = none :=
        alookup_eq_none_of_forall a rest fun q hq => by have := hk q hq; omega
      simp [alookup, hne, hnone]
    · subst h2
      simp [alookup]
    · have hne : a ≠ k := h2
      simp only [alookup, if_neg hne]
      exact ih hrest

theorem alookup_insertEdge_other : ∀ (m : List (ℤ × List ℤ)) (a b y : ℤ), y ≠ a →
    alookup y (insertEdge m a b) = alookup y m := by
  intro m a b
  induction m with
  | nil =>
    intro y hy
    simp [insertEdge, alookup, hy]
  | cons kv rest ih =>
    obtain ⟨k, vs⟩ := kv
    intro y hy
    simp only [insertEdge]
    split_ifs with h1 h2
    · simp only [alookup, if_neg hy]
    · subst h2
      simp only [alookup, if_neg hy]
    · by_cases hyk : y = k
      · simp only [alookup, if_pos hyk]
      · simp only [alookup, if_neg hyk]
        exact ih y hy

theorem alookup_iff_mem : ∀ m : List (ℤ × List ℤ), m.Pairwise (fun u v => u.1 < v.1) →
    ∀ (k : ℤ) (vs : List ℤ), (k, vs) ∈ m ↔ alookup k m = some vs := by
  intro m
  induction m with
  | nil => intro _ k vs; simp [alookup]
  | cons q rest ih =>
    obtain ⟨k0, vs0⟩ := q
    intro hs k vs
    rw [List.pairwise_cons] at hs
    obtain ⟨hk0, hrest⟩ := hs
    by_cases hkk : k = k0
    · subst hkk
      have halk : alookup k ((k, vs0) :: rest) = some vs0 := by
        simp [alookup]
      rw [halk]
      constructor
      · intro hmem
        rcases List.mem_cons.mp hmem with h | h
        · injection h with h1 h2
          rw [h2]
        · exact absurd (hk0 _ h) (lt_irrefl _)
      · intro h
        injection h with h2
        rw [← h2]
        exact List.mem_cons_self _ _
    · have halk : alookup k ((k0, vs0) :: rest) = alookup k rest := by
        simp [alookup, hkk]
      rw [halk, ← ih hrest k vs]
      constructor
      · intro hmem
        rcases List.mem_cons.mp hmem with h | h
        · injection h with h1 h2
          exact absurd h1 hkk
        · exact h
      · intro h
        exact List.mem_cons_of_mem _ h

theorem e2a_fold : ∀ (el : List (ℤ × ℤ)) (m : List (ℤ × List ℤ)) (processed : List (ℤ × ℤ)),
    m.Pairwise (fun u v => u.1 < v.1) →
    (∀ k : ℤ, alookup k m =
      optList ((processed.filter fun e => decide (e.1 = k)).map Prod.snd)) →
    ((el.foldl (fun acc e => insertEdge acc e.1 e.2) m).Pairwise fun u v => u.1 < v.1) ∧
      ∀ k : ℤ, alookup k (el.foldl (fun acc e => insertEdge acc e.1 e.2) m) =
        optList (((processed ++ el).filter fun e => decide (e.1 = k)).map Prod.snd) := by
  intro el
  induction el with
  | nil =>
    intro m processed hs hl
    rw [List.append_nil]
    exact ⟨hs, hl⟩
  | cons e rest ih =>
    intro m processed hs hl
    have hs2 := insertEdge_sorted m e.1 e.2 hs
    have hl2 : ∀ k : ℤ, alookup k (insertEdge m e.1 e.2) =
        optList (((processed ++ [e]).filter fun q => decide (q.1 = k)).map Prod.snd) := by
      intro k
      by_cases hke : e.1 = k
      · subst hke
        rw [alookup_insertEdge_self m e.1 e.2 hs, hl e.1]
        have hfe : ((processed ++ [e]).filter fun q => decide (q.1 = e.1)) =
            (processed.filter fun q => decide (q.1 = e.1)) ++ [e] := by
          rw [List.filter_append]
          simp [List.filter_cons]
        rw [hfe, List.map_append]
        cases hpf : (processed.filter fun q => decide (q.1 = e.1)).map Prod.snd with
        | nil => simp [optList]
        | cons qh qt => simp [optList]
      · rw [alookup_insertEdge_other m e.1 e.2 k fun hcon => hke hcon.symm, hl k]
        have hfe : ((processed ++ [e]).filter fun q => decide (q.1 = k)) =
            processed.filter fun q => decide (q.1 = k) := by
          rw [List.filter_append]
          have h0 : ([e].filter fun q => decide (q.1 = k)) = [] := by
            simp [List.filter_cons, hke]
          rw [h0, List.append_nil]
        rw [hfe]
    have hres := ih (insertEdge m e.1 e.2) (processed ++ [e]) hs2 hl2
    rw [List.append_assoc, List.singleton_append] at hres
    exact hres

/-- C8: `edgelist_to_adjacencylist` maps exactly the distinct source ids of
the edge list (bins with no outgoing edge are absent), in ascending id order,
each to its destination ids in edge-list order; in particular
`[(1,2),(1,3),(2,3)]` yields `[(1,[2,3]),(2,[3])]`. -/
theorem edgelist_to_adjacencylist_spec (el : List (ℤ × ℤ)) :
    ((edgelist_to_adjacencylist el).Pairwise fun u v => u.1 < v.1) ∧
      (∀ (k : ℤ) (vs : List ℤ), (k, vs) ∈ edgelist_to_adjacencylist el ↔
        k ∈ el.map Prod.fst ∧ vs = (el.filter fun e => decide (e.1 = k)).map Prod.snd) ∧
      edgelist_to_adjacencylist [(1, 2), (1, 3), (2, 3)] = [(1, [2, 3]), (2, [3])] := by
  have hdef : edgelist_to_adjacencylist el =
      el.foldl (fun acc e => insertEdge acc e.1 e.2) [] := rfl
  have hinit : ∀ k : ℤ, alookup k ([] : List (ℤ × List ℤ)) =
      optList ((([] : List (ℤ × ℤ)).filter fun e => decide (e.1 = k)).map Prod.snd) := by
    intro k; rfl
  have h := e2a_fold el [] [] List.Pairwise.nil hinit
  rw [List.nil_append] at h
  obtain ⟨hsorted, hlook⟩ := h
  rw [hdef]
  refine ⟨hsorted, ?_, by decide⟩
  intro k vs
  rw [alookup_iff_mem _ hsorted k vs, hlook k]
  have hsrc : k ∈ el.map Prod.fst ↔ (el.filter fun e => decide (e.1 = k)) ≠ [] := by
    rw [List.mem_map, Ne, List.filter_eq_nil_iff]
    constructor
    · rintro ⟨e, he, rfl⟩ hall
      exact absurd (by simp) (hall e he)
    · intro hne
      by_contra hcon
      exact hne fun e he hk => hcon ⟨e, he, by simpa using hk⟩
  rw [hsrc]
  cases hf : (el.filter fun e => decide (e.1 = k)) with
  | nil => simp [optList]
  | cons fh ft =>
    simp only [optList, List.map_cons]
    rw [if_neg (List.cons_ne_nil _ _)]
    constructor
    · intro hvs
      exact ⟨by simp, (Option.some_inj.mp hvs).symm⟩
    · rintro ⟨-, rfl⟩
      rfl

theorem edgelist_to_adjacencylist_spec_witness :
    ((1 : ℤ), [(2 : ℤ), 3]) ∈ edgelist_to_adjacencylist [(1, 2), (1, 3), (2, 3)] :=
  ((edgelist_to_adjacencylist_spec [(1, 2), (1, 3), (2, 3)]).2.1 1 [2, 3]).mpr
    (by constructor <;> decide)

/-- C6: evaluating `dist_to_boxes` at `pos = 2`, `interval_length = 1`,
`num_intervals = 4`, `dist_to_lower = 0.2`, `dist_to_upper = 0.3` returns the
targets `[1, 3, 4]` with distances `[2.2, 0.3, 1.3]`: the first distance is
`2.2`, not the `0.2` the claim (and the code's own comment about distances to
the closest endpoint) describes. -/
theorem dist_to_boxes_example_eval :
    dist_to_boxes [2] 1 4 [1 / 5] [3 / 10] = ([[1, 3, 4]], [[11 / 5, 3 / 10, 13 / 10]]) ∧
      (11 / 5 : ℚ) ≠ 1 / 5 := by
  with_unfolding_all decide
